import Mathlib

/-!
Verification of the persistence core of the Planner App repository
(`planner_app/db.py`, `planner_app/models.py`, `planner_app/services.py`).

The SQLite-backed `TaskRepository` is embedded as a pure state-passing
model: the `tasks` table is a list of rows, `AUTOINCREMENT` is a
monotone counter, and each repository method is a function on the store.
One behavioural fact of the backing library is important and is part of
the embedding: Python's `sqlite3` module never executes
`PRAGMA foreign_keys = ON`, and SQLite foreign-key enforcement is OFF by
default per connection; `_connect` opens plain connections, so the
schema's `FOREIGN KEY(parent_task_id) REFERENCES tasks(id) ON DELETE
CASCADE` clause is inert at runtime: `DELETE` removes only the matched
row and `INSERT` performs no referential check.
-/

/-- A calendar date, as in Python's `datetime.date` (year 1..9999). -/
structure PDate where
  year : Nat
  month : Nat
  day : Nat
deriving DecidableEq, Repr

/-- Leap-year test of the Gregorian calendar (Python `calendar.isleap`). -/
def isLeap (y : Nat) : Bool :=
  (y % 4 == 0 && y % 100 != 0) || y % 400 == 0

/-- Number of days in a month (as enforced by `datetime.date`). -/
def daysInMonth (y m : Nat) : Nat :=
  if m = 2 then (if isLeap y then 29 else 28)
  else if m = 4 ∨ m = 6 ∨ m = 9 ∨ m = 11 then 30
  else 31

/-- The invariant Python's `datetime.date` constructor enforces. -/
def PDate.Valid (d : PDate) : Prop :=
  1 ≤ d.year ∧ d.year ≤ 9999 ∧ 1 ≤ d.month ∧ d.month ≤ 12 ∧
    1 ≤ d.day ∧ d.day ≤ daysInMonth d.year d.month

instance (d : PDate) : Decidable d.Valid := by
  unfold PDate.Valid; infer_instance

/-- The calendar successor of a date, `d + timedelta(days=1)`; `none`
models the `OverflowError` CPython raises when the result would pass
`date.max` = 9999-12-31. -/
def nextDay (d : PDate) : Option PDate :=
  if d.day < daysInMonth d.year d.month then
    some { d with day := d.day + 1 }
  else if d.month < 12 then
    some { year := d.year, month := d.month + 1, day := 1 }
  else if d.year < 9999 then
    some { year := d.year + 1, month := 1, day := 1 }
  else
    none

/-- Addition of days, `d + timedelta(days=n)` for `n ≥ 0`: Python date
arithmetic works on the proleptic-Gregorian ordinal, so adding `n` days
is `n` calendar successors; `none` models the `OverflowError` raised
when the sum passes `date.max`. -/
def addDays (d : PDate) : Nat → Option PDate
  | 0 => some d
  | n + 1 => (addDays d n).bind nextDay

/-- Effectful list mapping: a Python list comprehension over `f`, where
a raise in any element aborts the whole result (`none`). -/
def optMap (f : α → Option β) : List α → Option (List β)
  | [] => some []
  | a :: as =>
    match f a, optMap f as with
    | some b, some bs => some (b :: bs)
    | _, _ => none

/-- The `week_dates` helper from `planner_app/services.py`:
`[base + timedelta(days=offset) for offset in range(7)]`.
The `start or date.today()` default resolves the base before the
comprehension; the model takes the base date explicitly. `none` models
the `OverflowError` that aborts the comprehension when an addition
passes `date.max`. -/
def week_dates (base : PDate) : Option (List PDate) :=
  optMap (fun offset => addDays base offset) (List.range 7)

/-- ASCII digit character for `n < 10`. -/
def digitChar (n : Nat) : Char := Char.ofNat (48 + n)

/-- Python `date.isoformat()`: the ten-character string `YYYY-MM-DD`
(zero-padded; years of `datetime.date` never exceed four digits). -/
def isoformat (d : PDate) : String :=
  ⟨[digitChar (d.year / 1000 % 10), digitChar (d.year / 100 % 10),
    digitChar (d.year / 10 % 10), digitChar (d.year % 10), '-',
    digitChar (d.month / 10 % 10), digitChar (d.month % 10), '-',
    digitChar (d.day / 10 % 10), digitChar (d.day % 10)]⟩

/-- Numeric value of an ASCII digit, `none` on a non-digit. -/
def digitVal (c : Char) : Option Nat :=
  if 48 ≤ c.toNat ∧ c.toNat ≤ 57 then some (c.toNat - 48) else none

/-- Python `date.fromisoformat` on the canonical `YYYY-MM-DD` layout written by
`isoformat`; `none` models the `ValueError` Python raises on any other
input, including calendar-invalid field values. -/
def fromisoformat (s : String) : Option PDate :=
  match s.data with
  | [y3, y2, y1, y0, c1, m1, m0, c2, d1, d0] =>
    if c1 = '-' ∧ c2 = '-' then
      match digitVal y3, digitVal y2, digitVal y1, digitVal y0,
            digitVal m1, digitVal m0, digitVal d1, digitVal d0 with
      | some a, some b, some c, some e, some f, some g, some h, some i =>
        let dt : PDate :=
          ⟨1000 * a + 100 * b + 10 * c + e, 10 * f + g, 10 * h + i⟩
        if dt.Valid then some dt else none
      | _, _, _, _, _, _, _, _ => none
    else none
  | _ => none

namespace Planner

/-- One row of the `tasks` table, per the schema in `_init_db`:
`id INTEGER PRIMARY KEY AUTOINCREMENT`, `title TEXT`, `description TEXT`,
`due_date TEXT` (ISO string), `is_completed INTEGER`,
`parent_task_id INTEGER NULL`, `sort_order INTEGER`. -/
structure Row where
  id : Int
  title : String
  description : String
  due_date : String
  is_completed : Int
  parent_task_id : Option Int
  sort_order : Int
deriving DecidableEq, Repr

/-- The `Task` dataclass from `planner_app/models.py`. -/
structure Task where
  id : Option Int
  title : String
  due_date : PDate
  description : String := ""
  is_completed : Bool := false
  parent_task_id : Option Int := none
  sort_order : Int := 0
deriving DecidableEq, Repr

/-- The state of one repository database: the rows of the `tasks` table
plus SQLite's `AUTOINCREMENT` counter (the next key to assign; with
`AUTOINCREMENT` keys are strictly increasing and never reused). -/
structure Store where
  rows : List Row
  nextId : Int
deriving DecidableEq, Repr

/-- Python `int(bool)`. -/
def boolToInt (b : Bool) : Int := if b then 1 else 0

/-- The `_row_to_task` helper: rebuild a `Task` from a row. `none` models the
`ValueError` that `date.fromisoformat` raises on a malformed string;
Python `bool` of the stored `is_completed` integer is `≠ 0`. -/
def row_to_task (r : Row) : Option Task :=
  (fromisoformat r.due_date).map fun dt =>
    { id := some r.id, title := r.title, description := r.description,
      due_date := dt, is_completed := r.is_completed ≠ 0,
      parent_task_id := r.parent_task_id, sort_order := r.sort_order }

/-- The `ORDER BY` key of `list_for_date`:
`COALESCE(parent_task_id, id), parent_task_id IS NOT NULL, sort_order, id`
(SQLite renders the boolean as 0/1). -/
def rowKey (r : Row) : Int × Int × Int × Int :=
  (r.parent_task_id.getD r.id, if r.parent_task_id.isSome then 1 else 0,
    r.sort_order, r.id)

/-- Ascending lexicographic order on four-column `ORDER BY` keys. -/
def keyLE (p q : Int × Int × Int × Int) : Prop :=
  p.1 < q.1 ∨ (p.1 = q.1 ∧
    (p.2.1 < q.2.1 ∨ (p.2.1 = q.2.1 ∧
      (p.2.2.1 < q.2.2.1 ∨ (p.2.2.1 = q.2.2.1 ∧
        p.2.2.2 ≤ q.2.2.2)))))

instance (p q : Int × Int × Int × Int) : Decidable (keyLE p q) := by
  unfold keyLE; infer_instance

/-- Lexicographic comparison of `ORDER BY` keys (all columns ascending). -/
def rowLE (a b : Row) : Bool :=
  decide (keyLE (rowKey a) (rowKey b))

/-- The `list_for_date` query: `SELECT ... FROM tasks WHERE due_date = ?
ORDER BY COALESCE(parent_task_id, id), parent_task_id IS NOT NULL,
sort_order, id`, then `_row_to_task` on every row. The `?` parameter is
`task_date.isoformat()`. -/
def list_for_date (s : Store) (d : PDate) : Option (List Task) :=
  optMap row_to_task
    (((s.rows.filter fun r => r.due_date == isoformat d).mergeSort rowLE))

/-- The `create` operation: `INSERT INTO tasks (title, description, due_date,
is_completed, parent_task_id, sort_order) VALUES (?, ?, ?, ?, ?, ?)` —
the input's `id` is never read; SQLite assigns the `AUTOINCREMENT` key
and `cursor.lastrowid` returns it. No foreign-key check runs
(`PRAGMA foreign_keys` is never enabled), so the insert always
succeeds. -/
def create (s : Store) (t : Task) : Int × Store :=
  (s.nextId,
    { rows := s.rows ++
        [{ id := s.nextId, title := t.title, description := t.description,
           due_date := isoformat t.due_date,
           is_completed := boolToInt t.is_completed,
           parent_task_id := t.parent_task_id,
           sort_order := t.sort_order }],
      nextId := s.nextId + 1 })

/-- The `update` operation: raises a `ValueError` carrying `Task ID is required for
update` when
`task.id is None`, before any connection or SQL statement; otherwise
`UPDATE tasks SET title = ?, description = ?, due_date = ?,
is_completed = ?, parent_task_id = ?, sort_order = ? WHERE id = ?`.
The first component is the raised message (`none` = normal return), the
second the store afterwards — unchanged when the precondition fails. -/
def update (s : Store) (t : Task) : Option String × Store :=
  match t.id with
  | none => (some "Task ID is required for update", s)
  | some i =>
    (none,
      { s with rows := s.rows.map (fun r =>
          if r.id = i then
            { r with
              title := t.title,
              description := t.description,
              due_date := isoformat t.due_date,
              is_completed := boolToInt t.is_completed,
              parent_task_id := t.parent_task_id,
              sort_order := t.sort_order }
          else r) })

/-- The `delete` operation: `DELETE FROM tasks WHERE id = ?`. Foreign-key enforcement
is off on every connection `_connect` opens, so the schema's
`ON DELETE CASCADE` clause does not fire: only the matched row goes. -/
def delete (s : Store) (task_id : Int) : Store :=
  { s with rows := s.rows.filter fun r => r.id ≠ task_id }

/-- Well-formedness of every store reachable through the repository API:
keys are below the `AUTOINCREMENT` counter and pairwise distinct
(`PRIMARY KEY`), and each `due_date` cell holds the ISO string of a
valid calendar date (the only writers serialize via `isoformat`). -/
def Store.WF (s : Store) : Prop :=
  (∀ r ∈ s.rows, r.id < s.nextId) ∧
  (s.rows.map Row.id).Nodup ∧
  (∀ r ∈ s.rows, ∃ d : PDate, d.Valid ∧ r.due_date = isoformat d)

/-- Modelled from the spec's ordering words: the cluster a returned task
belongs to is keyed by "the root's own id" — its parent for a child,
its own id for a root task (returned tasks always carry an id). -/
def clusterRoot (t : Task) : Int :=
  match t.parent_task_id with
  | some p => p
  | none => t.id.getD 0

/-- Modelled from the spec's ordering words: roots sort before children
inside a cluster. -/
def childFlag (t : Task) : Nat :=
  if t.parent_task_id.isSome then 1 else 0

/-- Modelled from the spec's ordering words for a date group: clusters
ordered by the root's id, the root before its children within a cluster,
children by `sort_order` ascending with `id` as the final tiebreak. -/
def specTaskLE (a b : Task) : Prop :=
  clusterRoot a < clusterRoot b ∨ (clusterRoot a = clusterRoot b ∧
    (childFlag a < childFlag b ∨ (childFlag a = childFlag b ∧
      (a.sort_order < b.sort_order ∨ (a.sort_order = b.sort_order ∧
        a.id.getD 0 ≤ b.id.getD 0)))))

instance (a b : Task) : Decidable (specTaskLE a b) := by
  unfold specTaskLE; infer_instance

/-- The date 2024-01-01, used by the spec's concrete examples. -/
def sampleDate : PDate := ⟨2024, 1, 1⟩

/-- A second valid date, for due-date moves. -/
def sampleDate2 : PDate := ⟨2024, 1, 2⟩

/-- A freshly initialized database: `_init_db` creates the empty `tasks`
table; `AUTOINCREMENT` issues 1 first. -/
def emptyStore : Store := ⟨[], 1⟩

/-- The spec's ordering example, root task R with id 5. -/
def exRowR : Row := ⟨5, "R", "", isoformat sampleDate, 0, none, 0⟩

/-- The spec's ordering example, child C1 with id 6 and sort_order 1. -/
def exRowC1 : Row := ⟨6, "C1", "", isoformat sampleDate, 0, some 5, 1⟩

/-- The spec's ordering example, child C2 with id 7 and sort_order 0. -/
def exRowC2 : Row := ⟨7, "C2", "", isoformat sampleDate, 0, some 5, 0⟩

/-- A store holding the spec's ordering example in insertion order. -/
def exStore : Store := ⟨[exRowR, exRowC1, exRowC2], 8⟩

/-- Task read back for row R. -/
def exTaskR : Task :=
  { id := some 5, title := "R", due_date := sampleDate }

/-- Task read back for row C1. -/
def exTaskC1 : Task :=
  { id := some 6, title := "C1", due_date := sampleDate,
    parent_task_id := some 5, sort_order := 1 }

/-- Task read back for row C2. -/
def exTaskC2 : Task :=
  { id := some 7, title := "C2", due_date := sampleDate,
    parent_task_id := some 5, sort_order := 0 }

/-- A parent task about to be created (no id yet). -/
def parentTask : Task := { id := none, title := "parent", due_date := sampleDate }

/-- A child task referencing the parent that `create` will store as id 1. -/
def childTask : Task :=
  { id := none, title := "child", due_date := sampleDate,
    parent_task_id := some 1 }

/-- A task whose `parent_task_id` dangles: no task with id 999 exists. -/
def danglingTask : Task :=
  { id := none, title := "dangling", due_date := sampleDate,
    parent_task_id := some 999 }

/-- Store after creating the parent and then the child. -/
def familyStore : Store := (create (create emptyStore parentTask).2 childTask).2

/-- A one-row store used by hypothesis witnesses. -/
def wStore : Store :=
  ⟨[⟨1, "w", "", isoformat sampleDate, 0, none, 0⟩], 2⟩

/-- An update payload that moves the stored task to another date. -/
def wTask : Task :=
  { id := some 1, title := "w2", due_date := sampleDate2,
    description := "d", is_completed := true, sort_order := 3 }

/-- A creation payload with the default empty description. -/
def cTask : Task := { id := none, title := "n", due_date := sampleDate2 }

end Planner

theorem digitVal_digitChar {n : Nat} (h : n < 10) :
    digitVal (digitChar n) = some n := by
  interval_cases n <;> decide

/-- Writing a valid date and parsing it back is the identity. -/
theorem fromisoformat_isoformat {d : PDate} (h : d.Valid) :
    fromisoformat (isoformat d) = some d := by
  obtain ⟨h1, h2, h3, h4, h5, h6⟩ := h
  have hm : d.month ≤ 99 := by omega
  have hday : d.day ≤ 31 := by
    have : daysInMonth d.year d.month ≤ 31 := by
      unfold daysInMonth; split <;> [split; split] <;> omega
    omega
  simp only [fromisoformat, isoformat]
  rw [digitVal_digitChar (by omega), digitVal_digitChar (by omega),
    digitVal_digitChar (by omega), digitVal_digitChar (by omega),
    digitVal_digitChar (by omega), digitVal_digitChar (by omega),
    digitVal_digitChar (by omega), digitVal_digitChar (by omega)]
  have hy : 1000 * (d.year / 1000 % 10) + 100 * (d.year / 100 % 10) +
      10 * (d.year / 10 % 10) + d.year % 10 = d.year := by omega
  have hmo : 10 * (d.month / 10 % 10) + d.month % 10 = d.month := by omega
  have hd : 10 * (d.day / 10 % 10) + d.day % 10 = d.day := by omega
  simp only [hy, hmo, hd, and_self, if_true]
  split
  · rfl
  · next hc =>
    exact absurd ⟨h1, h2, h3, h4, h5, h6⟩ hc

/-- The encoding `isoformat` is injective on valid dates. -/
theorem isoformat_inj {d₁ d₂ : PDate} (h₁ : d₁.Valid) (h₂ : d₂.Valid)
    (h : isoformat d₁ = isoformat d₂) : d₁ = d₂ := by
  have := fromisoformat_isoformat h₁
  rw [h, fromisoformat_isoformat h₂] at this
  exact (Option.some_inj.mp this).symm

/-- C8 as stated fails on the code: `week_dates` at the valid,
constructible date 9999-12-31 raises `OverflowError` inside the
comprehension (the addition passes `date.max` = 9999-12-31) and returns
nothing, instead of returning 7 dates. -/
theorem C8_week_dates_overflow_counterexample :
    week_dates ⟨9999, 12, 31⟩ = none ∧ (⟨9999, 12, 31⟩ : PDate).Valid := by
  decide

/-- C8 amended: for every date `start` whose 6-day addition stays
within `date.max` = 9999-12-31 (every start except
9999-12-26 .. 9999-12-31), `week_dates(start)` returns exactly the 7
consecutive calendar dates `[start, start+1, ..., start+6]` in that
order; in particular `week_dates(date(2024,1,1))` is exactly
2024-01-01 .. 2024-01-07. -/
theorem C8_week_dates_seven_consecutive (start : PDate)
    (h : (addDays start 6).isSome) :
    (∃ d1 d2 d3 d4 d5 d6 : PDate,
      addDays start 1 = some d1 ∧ addDays start 2 = some d2 ∧
      addDays start 3 = some d3 ∧ addDays start 4 = some d4 ∧
      addDays start 5 = some d5 ∧ addDays start 6 = some d6 ∧
      week_dates start = some [start, d1, d2, d3, d4, d5, d6] ∧
      nextDay start = some d1 ∧ nextDay d1 = some d2 ∧
      nextDay d2 = some d3 ∧ nextDay d3 = some d4 ∧
      nextDay d4 = some d5 ∧ nextDay d5 = some d6) ∧
    week_dates ⟨2024, 1, 1⟩ = some
      [⟨2024, 1, 1⟩, ⟨2024, 1, 2⟩, ⟨2024, 1, 3⟩, ⟨2024, 1, 4⟩,
        ⟨2024, 1, 5⟩, ⟨2024, 1, 6⟩, ⟨2024, 1, 7⟩] := by
  refine ⟨?_, by decide⟩
  obtain ⟨e6, h6⟩ := Option.isSome_iff_exists.mp h
  have hb6 : (addDays start 5).bind nextDay = some e6 := h6
  obtain ⟨e5, h5, hn56⟩ := Option.bind_eq_some.mp hb6
  have hb5 : (addDays start 4).bind nextDay = some e5 := h5
  obtain ⟨e4, h4, hn45⟩ := Option.bind_eq_some.mp hb5
  have hb4 : (addDays start 3).bind nextDay = some e4 := h4
  obtain ⟨e3, h3, hn34⟩ := Option.bind_eq_some.mp hb4
  have hb3 : (addDays start 2).bind nextDay = some e3 := h3
  obtain ⟨e2, h2, hn23⟩ := Option.bind_eq_some.mp hb3
  have hb2 : (addDays start 1).bind nextDay = some e2 := h2
  obtain ⟨e1, h1, hn12⟩ := Option.bind_eq_some.mp hb2
  have hn01 : nextDay start = some e1 := h1
  have h0 : addDays start 0 = some start := rfl
  refine ⟨e1, e2, e3, e4, e5, e6, h1, h2, h3, h4, h5, h6, ?_,
    hn01, hn12, hn23, hn34, hn45, hn56⟩
  have hw : week_dates start =
      optMap (fun k => addDays start k) [0, 1, 2, 3, 4, 5, 6] := rfl
  rw [hw]
  simp only [optMap, h0, h1, h2, h3, h4, h5, h6]

/-- Witness for C8 (amended) at 2024-01-01, far from the overflow
boundary. -/
theorem C8_week_dates_seven_consecutive_witness :
    (addDays ⟨2024, 1, 1⟩ 6).isSome ∧
    ((∃ d1 d2 d3 d4 d5 d6 : PDate,
      addDays ⟨2024, 1, 1⟩ 1 = some d1 ∧ addDays ⟨2024, 1, 1⟩ 2 = some d2 ∧
      addDays ⟨2024, 1, 1⟩ 3 = some d3 ∧ addDays ⟨2024, 1, 1⟩ 4 = some d4 ∧
      addDays ⟨2024, 1, 1⟩ 5 = some d5 ∧ addDays ⟨2024, 1, 1⟩ 6 = some d6 ∧
      week_dates ⟨2024, 1, 1⟩ =
        some [⟨2024, 1, 1⟩, d1, d2, d3, d4, d5, d6] ∧
      nextDay ⟨2024, 1, 1⟩ = some d1 ∧ nextDay d1 = some d2 ∧
      nextDay d2 = some d3 ∧ nextDay d3 = some d4 ∧
      nextDay d4 = some d5 ∧ nextDay d5 = some d6) ∧
    week_dates ⟨2024, 1, 1⟩ = some
      [⟨2024, 1, 1⟩, ⟨2024, 1, 2⟩, ⟨2024, 1, 3⟩, ⟨2024, 1, 4⟩,
        ⟨2024, 1, 5⟩, ⟨2024, 1, 6⟩, ⟨2024, 1, 7⟩]) :=
  ⟨by decide, C8_week_dates_seven_consecutive ⟨2024, 1, 1⟩ (by decide)⟩

namespace Planner

/-- C6: deleting an id that matches no stored task is a silent no-op —
the store is unchanged, and a second `delete` with the same id is again
a no-op (the operation has no failure outcome at all). -/
theorem C6_delete_missing_is_noop (s : Store) (i : Int)
    (h : ∀ r ∈ s.rows, r.id ≠ i) :
    delete s i = s ∧
    (∀ (s' : Store) (j : Int), delete (delete s' j) j = delete s' j) := by
  constructor
  · unfold delete
    cases s with
    | mk rows nextId =>
      simp only [Store.mk.injEq, and_true]
      exact List.filter_eq_self.mpr fun r hr => by
        simpa using h r hr
  · intro s' j
    unfold delete
    simp [List.filter_filter]

/-- Witness for C6 at a concrete store: one row with id 1, delete id 5. -/
theorem C6_delete_missing_is_noop_witness :
    (∀ r ∈ wStore.rows, r.id ≠ 5) ∧
    (delete wStore 5 = wStore ∧
      (∀ (s' : Store) (j : Int), delete (delete s' j) j = delete s' j)) :=
  ⟨by decide, C6_delete_missing_is_noop wStore 5 (by decide)⟩

/-- C4: `update` on a task with no id raises the precondition error
`ValueError(Task ID is required for update)` before any write, leaving
the store unchanged — `list_for_date` agrees on every date before and
after the failed call. -/
theorem C4_update_without_id_fails_clean (s : Store) (t : Task)
    (h : t.id = none) :
    update s t = (some "Task ID is required for update", s) ∧
    (∀ d : PDate, list_for_date (update s t).2 d = list_for_date s d) := by
  have he : update s t = (some "Task ID is required for update", s) := by
    unfold update
    rw [h]
  exact ⟨he, fun d => by rw [he]⟩

/-- Witness for C4: an id-less task against the one-row store. -/
theorem C4_update_without_id_fails_clean_witness :
    (parentTask.id = none) ∧
    (update wStore parentTask = (some "Task ID is required for update", wStore) ∧
      (∀ d : PDate, list_for_date (update wStore parentTask).2 d =
        list_for_date wStore d)) :=
  ⟨rfl, C4_update_without_id_fails_clean wStore parentTask rfl⟩

/-- C10: `update` with an id that matches no stored record returns
normally, creates nothing and changes nothing — a silent no-op, with
`list_for_date` identical on every date before and after. -/
theorem C10_update_missing_id_is_noop (s : Store) (t : Task) (i : Int)
    (hid : t.id = some i) (h : ∀ r ∈ s.rows, r.id ≠ i) :
    update s t = (none, s) ∧
    (∀ d : PDate, list_for_date (update s t).2 d = list_for_date s d) := by
  have he : update s t = (none, s) := by
    unfold update
    rw [hid]
    cases s with
    | mk rows nextId =>
      simp only [Prod.mk.injEq, Store.mk.injEq, and_true, true_and]
      calc rows.map _ = rows.map id :=
            List.map_congr_left fun r hr => by
              simp [h r hr]
        _ = rows := List.map_id rows
  exact ⟨he, fun d => by rw [he]⟩

/-- Witness for C10: update payload with id 9 against the one-row store. -/
theorem C10_update_missing_id_is_noop_witness :
    ({ wTask with id := some 9 }.id = some 9) ∧
    (∀ r ∈ wStore.rows, r.id ≠ 9) ∧
    (update wStore { wTask with id := some 9 } = (none, wStore) ∧
      (∀ d : PDate, list_for_date (update wStore { wTask with id := some 9 }).2 d =
        list_for_date wStore d)) :=
  ⟨rfl, by decide,
    C10_update_missing_id_is_noop wStore { wTask with id := some 9 } 9 rfl (by decide)⟩

end Planner

namespace Planner

/-- C9: `create` never reads the id of its input — the result is
identical for every supplied id, the call always returns the fresh
`AUTOINCREMENT` key, and that key differs from every stored id. -/
theorem C9_create_ignores_input_id (s : Store) (t : Task)
    (h : ∀ r ∈ s.rows, r.id < s.nextId) :
    (∀ x : Option Int, create s { t with id := x } = create s t) ∧
    (create s t).1 = s.nextId ∧
    (∀ r ∈ s.rows, r.id ≠ (create s t).1) :=
  ⟨fun _ => rfl, rfl, fun r hr => Int.ne_of_lt (h r hr)⟩

/-- Witness for C9: a task carrying id 42 inserted into the one-row
store still gets key 2. -/
theorem C9_create_ignores_input_id_witness :
    (∀ r ∈ wStore.rows, r.id < wStore.nextId) ∧
    ((∀ x : Option Int, create wStore { wTask with id := x } = create wStore wTask) ∧
      (create wStore wTask).1 = wStore.nextId ∧
      (∀ r ∈ wStore.rows, r.id ≠ (create wStore wTask).1)) :=
  ⟨by decide, C9_create_ignores_input_id wStore wTask (by decide)⟩

/-- C1 fails on the code: after creating a parent (key 1) and a child
referencing it (key 2), `delete 1` leaves the child row in the store
with its dangling `parent_task_id = 1` — the schema's `ON DELETE
CASCADE` clause never fires because no connection enables
`PRAGMA foreign_keys`. -/
theorem C1_delete_leaves_orphan_child :
    (delete familyStore 1).rows.map Row.id = [2] ∧
    ∃ r ∈ (delete familyStore 1).rows, r.parent_task_id = some 1 := by
  decide

/-- C7 fails on the code: inserting a task whose `parent_task_id` is 999
into an empty store raises no foreign-key error — the row is stored with
the dangling reference and key 1 is returned, because foreign-key
enforcement is never switched on. -/
theorem C7_create_dangling_parent_succeeds :
    (create emptyStore danglingTask).1 = 1 ∧
    (create emptyStore danglingTask).2.rows.map
      (fun r => (r.id, r.parent_task_id)) = [(1, some 999)] := by
  decide

end Planner

namespace Planner

theorem optMap_total {α β : Type} {f : α → Option β} {xs : List α}
    (h : ∀ a ∈ xs, ∃ b, f a = some b) : ∃ ys, optMap f xs = some ys := by
  induction xs with
  | nil => exact ⟨[], rfl⟩
  | cons a as ih =>
    obtain ⟨b, hb⟩ := h a (List.mem_cons_self a as)
    obtain ⟨ys, hys⟩ := ih fun a' ha' => h a' (List.mem_cons_of_mem a ha')
    exact ⟨b :: ys, by simp [optMap, hb, hys]⟩

theorem optMap_mem {α β : Type} {f : α → Option β} {xs : List α}
    {ys : List β} (hxy : optMap f xs = some ys) {b : β} :
    b ∈ ys ↔ ∃ a ∈ xs, f a = some b := by
  induction xs generalizing ys with
  | nil =>
    simp only [optMap, Option.some_inj] at hxy
    subst hxy
    simp
  | cons a as ih =>
    cases hfa : f a with
    | none => simp [optMap, hfa] at hxy
    | some b0 =>
      cases hrest : optMap f as with
      | none => simp [optMap, hfa, hrest] at hxy
      | some bs =>
        simp only [optMap, hfa, hrest, Option.some_inj] at hxy
        subst hxy
        simp only [List.mem_cons]
        constructor
        · rintro (rfl | hb)
          · exact ⟨a, Or.inl rfl, hfa⟩
          · obtain ⟨a', ha', hfa'⟩ := (ih hrest).mp hb
            exact ⟨a', Or.inr ha', hfa'⟩
        · rintro ⟨a', rfl | ha', hfa'⟩
          · rw [hfa] at hfa'
            exact Or.inl (Option.some_inj.mp hfa').symm
          · exact Or.inr ((ih hrest).mpr ⟨a', ha', hfa'⟩)

theorem optMap_pairwise {α β : Type} {f : α → Option β}
    {R : α → α → Prop} {S : β → β → Prop} {xs : List α} {ys : List β}
    (hxy : optMap f xs = some ys) (hp : xs.Pairwise R)
    (hRS : ∀ a a' b b', R a a' → f a = some b → f a' = some b' → S b b') :
    ys.Pairwise S := by
  induction xs generalizing ys with
  | nil =>
    simp only [optMap, Option.some_inj] at hxy
    subst hxy
    exact List.Pairwise.nil
  | cons a as ih =>
    cases hfa : f a with
    | none => simp [optMap, hfa] at hxy
    | some b0 =>
      cases hrest : optMap f as with
      | none => simp [optMap, hfa, hrest] at hxy
      | some bs =>
        simp only [optMap, hfa, hrest, Option.some_inj] at hxy
        subst hxy
        rcases List.pairwise_cons.mp hp with ⟨ha, has⟩
        refine List.pairwise_cons.mpr ⟨?_, ih hrest has⟩
        intro b' hb'
        obtain ⟨a', ha', hfa'⟩ := (optMap_mem hrest).mp hb'
        exact hRS a a' b0 b' (ha a' ha') hfa hfa'

theorem keyLE_trans (p q r : Int × Int × Int × Int)
    (hpq : keyLE p q) (hqr : keyLE q r) : keyLE p r := by
  unfold keyLE at *
  omega

theorem keyLE_total (p q : Int × Int × Int × Int) : keyLE p q ∨ keyLE q p := by
  unfold keyLE
  omega

theorem rowLE_trans (a b c : Row) (hab : rowLE a b) (hbc : rowLE b c) :
    rowLE a c :=
  decide_eq_true
    (keyLE_trans _ _ _ (of_decide_eq_true hab) (of_decide_eq_true hbc))

theorem rowLE_total (a b : Row) : rowLE a b || rowLE b a := by
  simp only [rowLE, Bool.or_eq_true, decide_eq_true_eq]
  exact keyLE_total _ _

/-- Reading a row whose date cell is the ISO string of a valid date. -/
theorem row_to_task_eq {r : Row} {d : PDate} (hd : d.Valid)
    (hdue : r.due_date = isoformat d) :
    row_to_task r = some
      { id := some r.id, title := r.title, description := r.description,
        due_date := d, is_completed := decide (r.is_completed ≠ 0),
        parent_task_id := r.parent_task_id, sort_order := r.sort_order } := by
  unfold row_to_task
  rw [hdue, fromisoformat_isoformat hd]
  rfl

theorem decide_boolToInt_ne_zero (b : Bool) : decide (boolToInt b ≠ 0) = b := by
  cases b <;> rfl

end Planner

namespace Planner

/-- C3: after `create(T)` returns key N, `list_for_date(T.due_date)`
succeeds and contains the task equal to T in every field except id,
with id = N, and N differs from every previously stored id. -/
theorem C3_created_task_reads_back (s : Store) (t : Task) (hWF : s.WF)
    (hV : t.due_date.Valid) :
    ∃ l, list_for_date (create s t).2 t.due_date = some l ∧
      { t with id := some (create s t).1 } ∈ l ∧
      ∀ r ∈ s.rows, r.id ≠ (create s t).1 := by
  obtain ⟨hlt, _, hdates⟩ := hWF
  have hrows : (create s t).2.rows =
      s.rows ++
        [{ id := s.nextId, title := t.title, description := t.description,
           due_date := isoformat t.due_date,
           is_completed := boolToInt t.is_completed,
           parent_task_id := t.parent_task_id,
           sort_order := t.sort_order }] := rfl
  set nr : Row :=
    { id := s.nextId, title := t.title, description := t.description,
      due_date := isoformat t.due_date,
      is_completed := boolToInt t.is_completed,
      parent_task_id := t.parent_task_id,
      sort_order := t.sort_order } with hnrdef
  have hparse : ∀ r ∈ ((s.rows ++ [nr]).filter
      fun r => r.due_date == isoformat t.due_date).mergeSort rowLE,
      ∃ task, row_to_task r = some task := by
    intro r hr
    have hr' : r ∈ s.rows ++ [nr] :=
      List.mem_of_mem_filter (List.mem_mergeSort.mp hr)
    rcases List.mem_append.mp hr' with h1 | h2
    · obtain ⟨d, hdV, hdue⟩ := hdates r h1
      exact ⟨_, row_to_task_eq hdV hdue⟩
    · have : r = nr := by simpa using h2
      subst this
      exact ⟨_, row_to_task_eq hV rfl⟩
  obtain ⟨l, hl⟩ := optMap_total hparse
  have hlfd : list_for_date (create s t).2 t.due_date = some l := hl
  refine ⟨l, hlfd, ?_, fun r hr => Int.ne_of_lt (hlt r hr)⟩
  have hnr_mem : nr ∈ (s.rows ++ [nr]).filter
      (fun r => r.due_date == isoformat t.due_date) :=
    List.mem_filter.mpr ⟨List.mem_append_right _ (by simp), by simp⟩
  have hnr_parse : row_to_task nr = some { t with id := some (create s t).1 } := by
    rw [row_to_task_eq hV rfl]
    have h1 : (create s t).1 = s.nextId := rfl
    cases t with
    | mk tid ttitle tdue tdesc tcomp tparent tsort =>
      simp only [h1, Option.some_inj]
      congr 1
      exact decide_boolToInt_ne_zero tcomp
  exact (optMap_mem hl).mpr ⟨nr, List.mem_mergeSort.mpr hnr_mem, hnr_parse⟩

/-- The one-row witness store is well-formed. -/
theorem wStore_WF : wStore.WF := by
  refine ⟨by decide, by decide, ?_⟩
  intro r hr
  simp only [wStore] at hr
  have := List.mem_singleton.mp hr
  subst this
  exact ⟨sampleDate, by decide, rfl⟩

/-- Witness for C3: creating a task with empty description into the
one-row store; it reads back with description exactly the empty
string and the fresh key 2. -/
theorem C3_created_task_reads_back_witness :
    wStore.WF ∧ cTask.due_date.Valid ∧
    (∃ l, list_for_date (create wStore cTask).2 cTask.due_date = some l ∧
      { cTask with id := some (create wStore cTask).1 } ∈ l ∧
      ∀ r ∈ wStore.rows, r.id ≠ (create wStore cTask).1) :=
  ⟨wStore_WF, by decide,
    C3_created_task_reads_back wStore cTask wStore_WF (by decide)⟩

end Planner

namespace Planner

/-- Fields a parsed task shares verbatim with its row. -/
theorem row_to_task_fields {r : Row} {t : Task} (h : row_to_task r = some t) :
    t.id = some r.id ∧ t.parent_task_id = r.parent_task_id ∧
      t.sort_order = r.sort_order := by
  unfold row_to_task at h
  cases hf : fromisoformat r.due_date with
  | none => rw [hf] at h; simp at h
  | some d0 =>
    rw [hf] at h
    simp only [Option.map_some', Option.some_inj] at h
    rw [← h]
    exact ⟨rfl, rfl, rfl⟩

end Planner

namespace Planner

/-- The SQL `ORDER BY` ordering implies the spec's described ordering on
the parsed tasks. -/
theorem specTaskLE_of_rowLE {r r' : Row} {t t' : Task} (h : rowLE r r')
    (ht : row_to_task r = some t) (ht' : row_to_task r' = some t') :
    specTaskLE t t' := by
  obtain ⟨hid, hpar, hsort⟩ := row_to_task_fields ht
  obtain ⟨hid', hpar', hsort'⟩ := row_to_task_fields ht'
  have hk : keyLE (rowKey r) (rowKey r') := of_decide_eq_true h
  unfold specTaskLE clusterRoot childFlag
  rw [hid, hpar, hsort, hid', hpar', hsort']
  unfold rowKey keyLE at hk
  rcases hp : r.parent_task_id with _ | p <;>
    rcases hp' : r'.parent_task_id with _ | p' <;>
    simp only [hp, hp', Option.getD_some, Option.getD_none,
      Option.isSome_some, Option.isSome_none] at hk ⊢ <;>
    simp at hk ⊢ <;>
    omega

end Planner

namespace Planner

/-- C2: for every valid date D and well-formed store, `list_for_date(D)`
succeeds and returns exactly the tasks read from rows due on D, in a
sequence sorted by the spec's order (cluster by root id, root before its
children, children by `sort_order` then `id`) with pairwise-distinct
ids; in particular the store holding root R (id 5) and children
C1 (id 6, sort 1) and C2 (id 7, sort 0) returns `[R, C2, C1]`. -/
theorem C2_list_for_date_ordered (s : Store) (d : PDate)
    (hWF : s.WF) (hd : d.Valid) :
    (∃ l, list_for_date s d = some l ∧
      (∀ t : Task, t ∈ l ↔
        ∃ r ∈ s.rows, row_to_task r = some t ∧ t.due_date = d) ∧
      l.Pairwise specTaskLE ∧
      (l.map Task.id).Nodup) ∧
    list_for_date exStore sampleDate = some [exTaskR, exTaskC2, exTaskC1] := by
  obtain ⟨hlt, hnodup, hdates⟩ := hWF
  have hparse : ∀ r ∈ (s.rows.filter
      fun r => r.due_date == isoformat d).mergeSort rowLE,
      ∃ task, row_to_task r = some task := by
    intro r hr
    have hrr : r ∈ s.rows :=
      List.mem_of_mem_filter (List.mem_mergeSort.mp hr)
    obtain ⟨d', hdV, hdue⟩ := hdates r hrr
    exact ⟨_, row_to_task_eq hdV hdue⟩
  obtain ⟨l, hl⟩ := optMap_total hparse
  constructor
  · refine ⟨l, hl, ?_, ?_, ?_⟩
    · intro t
      constructor
      · intro htl
        obtain ⟨r, hr, hpr⟩ := (optMap_mem hl).mp htl
        have hrfl := List.mem_mergeSort.mp hr
        have hrs : r ∈ s.rows := List.mem_of_mem_filter hrfl
        have hdue_eq : r.due_date = isoformat d := by
          have := (List.mem_filter.mp hrfl).2
          simpa using this
        refine ⟨r, hrs, hpr, ?_⟩
        obtain ⟨d', hdV, hdue⟩ := hdates r hrs
        have hdd : d' = d := isoformat_inj hdV hd (by rw [← hdue, hdue_eq])
        have hpr2 := hpr
        rw [row_to_task_eq hdV hdue] at hpr2
        have hteq := Option.some_inj.mp hpr2
        rw [← hteq]
        exact hdd
      · rintro ⟨r, hrs, hpr, htd⟩
        obtain ⟨d', hdV, hdue⟩ := hdates r hrs
        have hpr2 := hpr
        rw [row_to_task_eq hdV hdue] at hpr2
        have hteq := Option.some_inj.mp hpr2
        have htdue : t.due_date = d' := by rw [← hteq]
        have hdd : d' = d := by rw [← htdue]; exact htd
        subst hdd
        have hrfl : r ∈ s.rows.filter (fun r => r.due_date == isoformat d') :=
          List.mem_filter.mpr ⟨hrs, by simp [hdue]⟩
        exact (optMap_mem hl).mpr ⟨r, List.mem_mergeSort.mpr hrfl, hpr⟩
    · have hsorted := List.sorted_mergeSort rowLE_trans rowLE_total
        (s.rows.filter fun r => r.due_date == isoformat d)
      exact optMap_pairwise hl hsorted
        fun r r' t t' hrr ht ht' => specTaskLE_of_rowLE hrr ht ht'
    · have h0 : List.Pairwise (· ≠ ·) (s.rows.map Row.id) := hnodup
      have h1 : s.rows.Pairwise (fun a b => a.id ≠ b.id) :=
        List.pairwise_map.mp h0
      have h2 : (s.rows.filter
          (fun r => r.due_date == isoformat d)).Pairwise
          (fun a b => a.id ≠ b.id) :=
        List.Pairwise.sublist (List.filter_sublist _) h1
      have h3 := ((List.mergeSort_perm
        (s.rows.filter fun r => r.due_date == isoformat d)
        rowLE).pairwise_iff (fun hab e => hab e.symm)).mpr h2
      have h4 : l.Pairwise (fun a b => a.id ≠ b.id) := by
        refine optMap_pairwise hl h3 ?_
        intro r r' t t' hne ht ht'
        obtain ⟨hid, _, _⟩ := row_to_task_fields ht
        obtain ⟨hid', _, _⟩ := row_to_task_fields ht'
        rw [hid, hid']
        simp [hne]
      exact List.pairwise_map.mpr h4
  · simp [list_for_date, List.mergeSort, exStore, exRowR, exRowC1, exRowC2,
      sampleDate, optMap, row_to_task, rowLE, rowKey, keyLE, fromisoformat,
      isoformat, digitChar, digitVal, exTaskR, exTaskC1, exTaskC2,
      List.merge, List.filter, List.splitInTwo, boolToInt,
      PDate.Valid, daysInMonth, isLeap]

/-- The three-row example store is well-formed. -/
theorem exStore_WF : exStore.WF := by
  refine ⟨by decide, by decide, ?_⟩
  intro r hr
  simp only [exStore] at hr
  fin_cases hr <;> exact ⟨sampleDate, by decide, rfl⟩

/-- Witness for C2 at the spec's own example store and date. -/
theorem C2_list_for_date_ordered_witness :
    exStore.WF ∧ sampleDate.Valid ∧
    ((∃ l, list_for_date exStore sampleDate = some l ∧
      (∀ t : Task, t ∈ l ↔
        ∃ r ∈ exStore.rows, row_to_task r = some t ∧ t.due_date = sampleDate) ∧
      l.Pairwise specTaskLE ∧
      (l.map Task.id).Nodup) ∧
    list_for_date exStore sampleDate = some [exTaskR, exTaskC2, exTaskC1]) :=
  ⟨exStore_WF, by decide,
    C2_list_for_date_ordered exStore sampleDate exStore_WF (by decide)⟩

end Planner

namespace Planner

/-- C5: `update` on a task whose id matches a stored record returns
normally and fully overwrites every field of that record; the task then
appears verbatim in `list_for_date` of its (new) due date, and no task
with that id remains in the result for any other valid date — updating
`due_date` moves the task between date result sets. -/
theorem C5_update_full_overwrite (s : Store) (t : Task) (i : Int)
    (hWF : s.WF) (hid : t.id = some i) (hex : ∃ r ∈ s.rows, r.id = i)
    (hV : t.due_date.Valid) :
    (update s t).1 = none ∧
    (∀ r ∈ (update s t).2.rows, r.id = i →
      r.title = t.title ∧ r.description = t.description ∧
      r.due_date = isoformat t.due_date ∧
      r.is_completed = boolToInt t.is_completed ∧
      r.parent_task_id = t.parent_task_id ∧
      r.sort_order = t.sort_order) ∧
    (∃ l, list_for_date (update s t).2 t.due_date = some l ∧ t ∈ l) ∧
    (∀ dold : PDate, dold.Valid → dold ≠ t.due_date →
      ∀ l, list_for_date (update s t).2 dold = some l →
        ∀ u ∈ l, u.id ≠ some i) := by
  obtain ⟨hlt, hnodup, hdates⟩ := hWF
  have hupd : update s t =
      (none, { s with rows := s.rows.map (fun r =>
        if r.id = i then
          { r with
            title := t.title,
            description := t.description,
            due_date := isoformat t.due_date,
            is_completed := boolToInt t.is_completed,
            parent_task_id := t.parent_task_id,
            sort_order := t.sort_order }
        else r) }) := by
    unfold update
    rw [hid]
  rw [hupd]
  refine ⟨rfl, ?_, ?_, ?_⟩
  · intro r hr hri
    obtain ⟨r0, hr0, hfr0⟩ := List.mem_map.mp hr
    by_cases h0 : r0.id = i
    · rw [if_pos h0] at hfr0
      rw [← hfr0]
      exact ⟨rfl, rfl, rfl, rfl, rfl, rfl⟩
    · rw [if_neg h0] at hfr0
      rw [← hfr0] at hri
      exact absurd hri h0
  · -- the updated row reads back as t
    obtain ⟨r0, hr0, hr0i⟩ := hex
    have hparse : ∀ r ∈ ((s.rows.map (fun r =>
        if r.id = i then
          { r with
            title := t.title,
            description := t.description,
            due_date := isoformat t.due_date,
            is_completed := boolToInt t.is_completed,
            parent_task_id := t.parent_task_id,
            sort_order := t.sort_order }
        else r)).filter
        (fun r => r.due_date == isoformat t.due_date)).mergeSort rowLE,
        ∃ task, row_to_task r = some task := by
      intro r hr
      have hr' := List.mem_of_mem_filter (List.mem_mergeSort.mp hr)
      obtain ⟨r1, hr1, hfr1⟩ := List.mem_map.mp hr'
      by_cases h1 : r1.id = i
      · rw [if_pos h1] at hfr1
        rw [← hfr1]
        exact ⟨_, row_to_task_eq hV rfl⟩
      · rw [if_neg h1] at hfr1
        obtain ⟨d', hdV, hdue⟩ := hdates r1 hr1
        rw [← hfr1]
        exact ⟨_, row_to_task_eq hdV hdue⟩
    obtain ⟨l, hl⟩ := optMap_total hparse
    refine ⟨l, hl, ?_⟩
    have hmem : ({ r0 with
        title := t.title,
        description := t.description,
        due_date := isoformat t.due_date,
        is_completed := boolToInt t.is_completed,
        parent_task_id := t.parent_task_id,
        sort_order := t.sort_order } : Row) ∈
        (s.rows.map (fun r =>
          if r.id = i then
            { r with
              title := t.title,
              description := t.description,
              due_date := isoformat t.due_date,
              is_completed := boolToInt t.is_completed,
              parent_task_id := t.parent_task_id,
              sort_order := t.sort_order }
          else r)).filter
          (fun r => r.due_date == isoformat t.due_date) := by
      refine List.mem_filter.mpr ⟨?_, by simp⟩
      refine List.mem_map.mpr ⟨r0, hr0, ?_⟩
      rw [if_pos hr0i]
    refine (optMap_mem hl).mpr ⟨_, List.mem_mergeSort.mpr hmem, ?_⟩
    rw [row_to_task_eq hV rfl]
    cases t with
    | mk tid ttitle tdue tdesc tcomp tparent tsort =>
      simp only [Option.some_inj]
      simp only at hid
      rw [hid]
      simp only [hr0i]
      congr 1
      exact decide_boolToInt_ne_zero tcomp
  · intro dold hdoldV hne l hl u hu hui
    obtain ⟨r, hr, hpr⟩ := (optMap_mem hl).mp hu
    have hrfl := List.mem_mergeSort.mp hr
    have hdue_eq : r.due_date = isoformat dold := by
      have := (List.mem_filter.mp hrfl).2
      simpa using this
    obtain ⟨r0, hr0, hfr0⟩ := List.mem_map.mp (List.mem_of_mem_filter hrfl)
    by_cases h0 : r0.id = i
    · rw [if_pos h0] at hfr0
      have : isoformat t.due_date = isoformat dold := by
        rw [← hdue_eq, ← hfr0]
      exact hne (isoformat_inj hdoldV hV (this.symm))
    · rw [if_neg h0] at hfr0
      obtain ⟨huid, _, _⟩ := row_to_task_fields hpr
      rw [hui] at huid
      have : r.id = i := Option.some_inj.mp huid.symm
      rw [← hfr0] at this
      exact h0 this


/-- Witness for C5: the one-row store's task 1 updated with new title,
description, completion, sort order and a moved due date. -/
theorem C5_update_full_overwrite_witness :
    wStore.WF ∧ wTask.id = some 1 ∧ (∃ r ∈ wStore.rows, r.id = 1) ∧
    wTask.due_date.Valid ∧
    ((update wStore wTask).1 = none ∧
    (∀ r ∈ (update wStore wTask).2.rows, r.id = 1 →
      r.title = wTask.title ∧ r.description = wTask.description ∧
      r.due_date = isoformat wTask.due_date ∧
      r.is_completed = boolToInt wTask.is_completed ∧
      r.parent_task_id = wTask.parent_task_id ∧
      r.sort_order = wTask.sort_order) ∧
    (∃ l, list_for_date (update wStore wTask).2 wTask.due_date = some l ∧
      wTask ∈ l) ∧
    (∀ dold : PDate, dold.Valid → dold ≠ wTask.due_date →
      ∀ l, list_for_date (update wStore wTask).2 dold = some l →
        ∀ u ∈ l, u.id ≠ some 1)) :=
  ⟨wStore_WF, rfl, by decide, by decide,
    C5_update_full_overwrite wStore wTask 1 wStore_WF rfl (by decide) (by decide)⟩

end Planner
